import Mathlib

/-!
# Oracle SQL tool: `internal/tools/oracle/oraclesql/oraclesql.go`

A shallow embedding of `Tool.Invoke` and `Tool.Authorized`.

* Go strings and `[]byte` buffers are byte sequences.
* A Go `map[string]any` is a `Finmap`: a finite map with unique keys and no key order.
* A Go slice distinguishes the nil slice from an allocated one.
* The database cursor (`*sql.Rows`) is explicit state: what the database will deliver
  (`ResultSet`) plus position, the open/closed flag and the iteration error.
* The calls made to `DB.QueryContext` are recorded in the outcome of `Invoke`.
* The helpers of package `tools` used by `Invoke` are arguments of the embedding; the
  `fmt.Printf` debug output of lines 141-151 writes to standard output only and is left out.
-/

set_option autoImplicit false

namespace oraclesql

/-! ## Go values -/

abbrev Byte := Fin 256

/-- A Go `string`: an immutable sequence of bytes (not necessarily valid UTF-8). -/
abbrev GoString := List Byte

/-- Go `error` values. `errorf format inner` is `fmt.Errorf(format, inner)` with one `%w` verb;
`missingParameter` and `typeMismatch` are the binder errors of the error taxonomy; `ext` is any
other error made outside this file (driver, `database/sql`, template resolver). -/
inductive GoError
  | ext (msg : String)
  | missingParameter (name : GoString)
  | typeMismatch (name : GoString)
  | errorf (format : String) (inner : GoError)
deriving DecidableEq, Repr

/-- The error wrapped with `%w`, as returned by `errors.Unwrap`. -/
def GoError.Unwrap : GoError → Option GoError
  | .errorf _ inner => some inner
  | _ => none

/-- A dynamically typed Go value (`any`): the kinds `database/sql` stores into an `*interface{}`
destination (`nil`, `int64`, `float64`, `bool`, `time.Time`, `string`, `[]byte`) and the list
values a request may carry. A `float64` is kept by its bit pattern, a time by its instant. -/
inductive Value
  | null
  | int (n : Int)
  | float (bits : Nat)
  | bool (b : Bool)
  | time (unixNano : Int)
  | str (s : GoString)
  | bytes (b : List Byte)
  | list (xs : List Value)

mutual
/-- Structural equality test on values. -/
def Value.beq : Value → Value → Bool
  | .null, .null => true
  | .int a, .int b => a == b
  | .float a, .float b => a == b
  | .bool a, .bool b => a == b
  | .time a, .time b => a == b
  | .str a, .str b => a == b
  | .bytes a, .bytes b => a == b
  | .list a, .list b => Value.beqList a b
  | _, _ => false
/-- Structural equality test on lists of values. -/
def Value.beqList : List Value → List Value → Bool
  | [], [] => true
  | a :: as, b :: bs => Value.beq a b && Value.beqList as bs
  | _, _ => false
end

mutual
theorem Value.beq_iff : ∀ a b : Value, Value.beq a b = true ↔ a = b
  | .null, b => by cases b <;> simp [Value.beq]
  | .int a, b => by cases b <;> simp [Value.beq]
  | .float a, b => by cases b <;> simp [Value.beq]
  | .bool a, b => by cases b <;> simp [Value.beq]
  | .time a, b => by cases b <;> simp [Value.beq]
  | .str a, b => by cases b <;> simp [Value.beq]
  | .bytes a, b => by cases b <;> simp [Value.beq]
  | .list a, b => by
      cases b <;> simp [Value.beq]
      exact Value.beqList_iff a _
theorem Value.beqList_iff : ∀ a b : List Value, Value.beqList a b = true ↔ a = b
  | [], b => by cases b <;> simp [Value.beqList]
  | a :: as, b => by
      cases b with
      | nil => simp [Value.beqList]
      | cons b bs => simp [Value.beqList, Value.beq_iff a b, Value.beqList_iff as bs]
end

instance : DecidableEq Value := fun a b => decidable_of_iff _ (Value.beq_iff a b)

/-- A Go `map[string]any`: finitely many entries, one per key, in no order. -/
abbrev GoMap := Finmap (fun _ : GoString => Value)

/-- A Go slice: `nil` is the nil slice (`var out []any`), `mk elems` an allocated one. -/
inductive GoSlice (α : Type)
  | nil
  | mk (elems : List α)
deriving DecidableEq

/-- Go `append(s, x)`: appending to the nil slice allocates. -/
def GoSlice.append {α : Type} : GoSlice α → α → GoSlice α
  | .nil, x => .mk [x]
  | .mk xs, x => .mk (xs ++ [x])

/-- The elements of a slice in order; the nil slice has none. -/
def GoSlice.toList {α : Type} : GoSlice α → List α
  | .nil => []
  | .mk xs => xs

/-- Go `len(s)`. -/
def GoSlice.len {α : Type} (s : GoSlice α) : Nat := s.toList.length

/-- Go `s == nil`. -/
def GoSlice.isNil {α : Type} : GoSlice α → Bool
  | .nil => true
  | .mk _ => false

/-- The first return value of `Invoke`, of static type `any`: the untyped `nil` of the failure
returns, or the slice `out` (each element a `map[string]any`). -/
inductive GoAny
  | nil
  | slice (out : GoSlice GoMap)
deriving DecidableEq

/-- The records carried by a result; the untyped nil carries none. -/
def GoAny.records : GoAny → List GoMap
  | .nil => []
  | .slice out => out.toList

/-! ## The cursor (`*sql.Rows`) -/

/-- What the database delivers for one query: the outcome of `Columns()`, then for each row that
`Next` yields the outcome of scanning it, and the error (if any) that ends the iteration after
the last yielded row (cancellation, connection loss), which `Err()` reports. -/
structure ResultSet where
  columns : Except GoError (List GoString)
  rows : List (Except GoError (List Value))
  iterErr : Option GoError

/-- State of an open or closed cursor. `pending` are the rows not yet fetched, `current` the row
the last successful `Next` moved to, `lasterr` what `Err()` returns. -/
structure Rows where
  columns : Except GoError (List GoString)
  pending : List (Except GoError (List Value))
  iterErr : Option GoError
  current : Option (Except GoError (List Value))
  closed : Bool
  lasterr : Option GoError

/-- The cursor as `QueryContext` hands it over: open, before the first row. -/
def Rows.start (rs : ResultSet) : Rows :=
  ⟨rs.columns, rs.rows, rs.iterErr, none, false, none⟩

/-- `rows.Close()`. -/
def Rows.Close (r : Rows) : Rows := { r with closed := true }

/-- `rows.Columns()`: fails on a closed cursor. -/
def Rows.Columns (r : Rows) : Except GoError (List GoString) :=
  if r.closed then .error (.ext "sql: Rows are closed") else r.columns

/-- `rows.Next()`: moves to the next row and returns true, or returns false at the end of the
result set or on an iteration error, recording the error and closing the cursor. -/
def Rows.Next (r : Rows) : Bool × Rows :=
  if r.closed then (false, r)
  else
    match r.pending with
    | [] => (false, { r with current := none, closed := true, lasterr := r.iterErr })
    | row :: rest => (true, { r with pending := rest, current := some row })

/-- Scanning the row `row` into `dest` many `*interface{}` destinations: the row's own decode
error, or an error when the destination count is not the number of values of the row. -/
def scanRow (dest : Nat) : Except GoError (List Value) → Except GoError (List Value)
  | .error err => .error err
  | .ok vals =>
    if vals.length = dest then .ok vals
    else .error (.ext "sql: unexpected number of destination arguments in Scan")

/-- `rows.Scan(dest...)` with `dest` many `*interface{}` destinations: the driver values of the
current row, stored unconverted; an error when the cursor is closed, when there is no current
row, when the row fails to decode, or when the destination count is not the column count. -/
def Rows.Scan (r : Rows) (dest : Nat) : Except GoError (List Value) :=
  if r.closed then .error (.ext "sql: Rows are closed")
  else
    match r.current with
    | none => .error (.ext "sql: Scan called without calling Next")
    | some row => scanRow dest row

/-- `rows.Err()`. -/
def Rows.Err (r : Rows) : Option GoError := r.lasterr

/-- The database handle `*sql.DB`: `QueryContext(ctx, query, args...)` either fails or returns a
cursor over a result set. Cancellation of `ctx` shows as the errors the result set carries. -/
structure DB where
  QueryContext : GoString → List Value → Except GoError ResultSet

end oraclesql

/-! ## Package `tools` -/

namespace tools

open oraclesql

/-- Modelled from the spec: the declared value kind of a `tools.Parameter` (the type is declared
in `internal/tools`, outside this file): string, integer, float, boolean, array-of-kind. -/
inductive Kind
  | string
  | integer
  | float
  | boolean
  | array (elem : Kind)
deriving DecidableEq, Repr

/-- Modelled from the spec: a parameter spec of `tools.Parameters` (declared in
`internal/tools`): name, declared kind, optional default. -/
structure Parameter where
  Name : GoString
  Kind : Kind
  Default : Option Value

abbrev Parameters := List Parameter

/-- Modelled from the spec: one element of `tools.ParamValues` (declared in `internal/tools`):
a parameter name with its dynamically typed value. -/
structure ParamValue where
  Name : GoString
  Value : Value

abbrev ParamValues := List ParamValue

/-- Modelled from the spec: `ParamValues.AsMap` (in `internal/tools`), the invocation request as
a mapping from parameter name to value. -/
def ParamValues.AsMap (ps : ParamValues) : GoMap :=
  ps.foldl (fun m p => m.insert p.Name p.Value) ∅

/-- Modelled from the spec: `ParamValues.AsSlice` (in `internal/tools`), the values in order. -/
def ParamValues.AsSlice (ps : ParamValues) : List Value :=
  ps.map (fun p => p.Value)

/-- Modelled from the spec: kind validation of the Parameter Binder ("reject a string where an
integer is declared"). -/
def conforms : Kind → Value → Bool
  | .string, .str _ => true
  | .integer, .int _ => true
  | .float, .float _ => true
  | .boolean, .bool _ => true
  | .array k, .list xs => xs.all (fun x => conforms k x)
  | _, _ => false

/-- Modelled from the spec: `tools.GetParams` (in `internal/tools`), the Parameter Binder of
section 4.2. For each bind spec in declaration order the value is extracted from the request by
name and validated against the declared kind (`TypeMismatch`); an absent value is replaced by
the default of the spec, and is a `MissingParameter` error when there is none. -/
def GetParams : Parameters → GoMap → Except GoError ParamValues
  | [], _ => .ok []
  | p :: ps, paramsMap =>
    match paramsMap.lookup p.Name with
    | some v =>
      if conforms p.Kind v then
        match GetParams ps paramsMap with
        | .ok rest => .ok (⟨p.Name, v⟩ :: rest)
        | .error err => .error err
      else .error (.typeMismatch p.Name)
    | none =>
      match p.Default with
      | some d =>
        match GetParams ps paramsMap with
        | .ok rest => .ok (⟨p.Name, d⟩ :: rest)
        | .error err => .error err
      | none => .error (.missingParameter p.Name)

/-- Modelled from the spec: `tools.IsAuthorized` (in `internal/tools`), the authorization
membership check of section 4.5: true iff the required-service list is empty or every required
service name is among the verified ones. -/
def IsAuthorized (authRequired verifiedAuthServices : List GoString) : Bool :=
  if authRequired.length = 0 then true
  else authRequired.all (fun a => verifiedAuthServices.elem a)

/-- The two helpers of package `tools` that `Invoke` calls, as arguments of the embedding. -/
structure Helpers where
  ResolveTemplateParams : Parameters → GoString → GoMap → Except GoError GoString
  GetParams : Parameters → GoMap → Except GoError ParamValues

end tools

/-! ## The tool -/

namespace oraclesql

/-- Line 28: `const kind string = "oracle-sql"`, as bytes. -/
def kind : GoString := [111, 114, 97, 99, 108, 101, 45, 115, 113, 108]

/-- The `Tool` struct (lines 114-126), without the two manifests. -/
structure Tool where
  Name : GoString
  Kind : GoString
  AuthRequired : List GoString
  Parameters : tools.Parameters
  TemplateParameters : tools.Parameters
  AllParams : tools.Parameters
  DB : DB
  Statement : GoString

/-- Lines 184-189: a `[]byte` value becomes the `string` of the same bytes, any other value is
kept. -/
def normalize : Value → Value
  | .bytes b => .str b
  | val => val

/-- Lines 183-190: `for i, col := range columns` storing `vMap[col]` from `values[i]`, from index
`i` on. -/
def fillMap (values : List Value) : List GoString → Nat → GoMap → GoMap
  | [], _, vMap => vMap
  | col :: cols, i, vMap =>
    fillMap values cols (i + 1) (vMap.insert col (normalize (values.getD i .null)))

/-- Lines 181-190: the result map of one row, from `make(map[string]any)`. -/
def buildRecord (columns : List GoString) (values : List Value) : GoMap :=
  fillMap values columns 0 ∅

/-- Lines 168-194: the loop `for rows.Next()` and the final `return out, nil`. The first argument
bounds the number of iterations; `Invoke` passes one more than the number of pending rows, which
the loop never exceeds. -/
def rowLoop (columns : List GoString) : Nat → Rows → GoSlice GoMap →
    (GoAny × Option GoError) × Rows
  | 0, rows, _ => ((.nil, some (.ext "row loop bound exhausted")), rows)
  | bound + 1, rows, out =>
    match rows.Next with
    | (false, rows) => ((.slice out, none), rows)
    | (true, rows) =>
      match rows.Scan columns.length with
      | .error err => ((.nil, some (.errorf "unable to scan row: %w" err)), rows)
      | .ok values => rowLoop columns bound rows (out.append (buildRecord columns values))

/-- Lines 161-194: the part of `Invoke` that runs with the cursor open. -/
def materialize (rows : Rows) : (GoAny × Option GoError) × Rows :=
  match rows.Columns with
  | .error err => ((.nil, some (.errorf "unable to get columns: %w" err)), rows)
  | .ok columns => rowLoop columns (rows.pending.length + 1) rows .nil

/-- What one call of `Invoke` returns and does: the two return values, the calls made to
`DB.QueryContext` (statement text and arguments, in order), and the state in which the cursor
is left when `Invoke` returns (`none` when no cursor was obtained). -/
structure Outcome where
  result : GoAny
  err : Option GoError
  queries : List (GoString × List Value)
  rows : Option Rows

/-- `Tool.Invoke` (lines 128-195). `defer rows.Close()` runs when the function returns, on every
path after the cursor was obtained. -/
def Tool.Invoke (h : tools.Helpers) (t : Tool) (params : tools.ParamValues) : Outcome :=
  let paramsMap := tools.ParamValues.AsMap params
  match h.ResolveTemplateParams t.TemplateParameters t.Statement paramsMap with
  | .error err => ⟨.nil, some (.errorf "unable to extract template params %w" err), [], none⟩
  | .ok newStatement =>
    match h.GetParams t.Parameters paramsMap with
    | .error err => ⟨.nil, some (.errorf "unable to extract standard params %w" err), [], none⟩
    | .ok newParams =>
      let sliceParams := tools.ParamValues.AsSlice newParams
      match t.DB.QueryContext newStatement sliceParams with
      | .error err =>
        ⟨.nil, some (.errorf "unable to execute Oracle query: %w" err),
          [(newStatement, sliceParams)], none⟩
      | .ok rs =>
        let ret := materialize (Rows.start rs)
        ⟨ret.1.1, ret.1.2, [(newStatement, sliceParams)], some ret.2.Close⟩

/-- The stages before materialization succeed on this call: the template resolver returns a
statement, the binder returns values, and the database answers the query issued with them with
a cursor over the result set `rs`. -/
def Executes (h : tools.Helpers) (t : Tool) (params : tools.ParamValues) (rs : ResultSet) :
    Prop :=
  ∃ (newStatement : GoString) (newParams : tools.ParamValues),
    h.ResolveTemplateParams t.TemplateParameters t.Statement (tools.ParamValues.AsMap params)
      = .ok newStatement ∧
    h.GetParams t.Parameters (tools.ParamValues.AsMap params) = .ok newParams ∧
    t.DB.QueryContext newStatement (tools.ParamValues.AsSlice newParams) = .ok rs

/-- `Tool.Authorized` (lines 209-211). -/
def Tool.Authorized (t : Tool) (verifiedAuthServices : List GoString) : Bool :=
  tools.IsAuthorized t.AuthRequired verifiedAuthServices

/-! ## Concrete inputs

Small tools and result sets on which the statements below are evaluated. Names are ASCII bytes:
`ID` is `[73, 68]`, `EMAIL` is `[69, 77, 65, 73, 76]`. -/

/-- A template resolver for a tool without template parameters: the statement is unchanged. -/
def exResolve : tools.Parameters → GoString → GoMap → Except GoError GoString :=
  fun _ statement _ => .ok statement

/-- A template resolver that rejects every request. -/
def exResolveReject : tools.Parameters → GoString → GoMap → Except GoError GoString :=
  fun _ _ _ => .error (.ext "template value rejected")

/-- The identity resolver together with the binder `tools.GetParams`. -/
def exHelpers : tools.Helpers := ⟨exResolve, tools.GetParams⟩

/-- A tool with statement `Q` (`[81]`), no parameters, over a database that answers every query
with the result set `rs`. -/
def exTool (rs : ResultSet) : Tool :=
  { Name := [116], Kind := kind, AuthRequired := [], Parameters := [],
    TemplateParameters := [], AllParams := [], DB := ⟨fun _ _ => .ok rs⟩, Statement := [81] }

/-- Two rows over the columns `ID`, `EMAIL`: a binary-encoded email `a@b`, then a NULL email. -/
def exUsers : ResultSet :=
  ⟨.ok [[73, 68], [69, 77, 65, 73, 76]],
    [.ok [.int 1, .bytes [97, 64, 98]], .ok [.int 7, .null]], none⟩

/-- A result set without rows over the columns `ID`, `EMAIL`. -/
def exEmpty : ResultSet := ⟨.ok [[73, 68], [69, 77, 65, 73, 76]], [], none⟩

/-- The cursor yields one row over `ID`, `EMAIL`, then the iteration ends with an error. -/
def exCut : ResultSet :=
  ⟨.ok [[73, 68], [69, 77, 65, 73, 76]], [.ok [.int 1, .bytes [97, 64, 98]]],
    some (.ext "context canceled")⟩

/-- One row over a column list that reports the name `ID` twice. -/
def exDup : ResultSet := ⟨.ok [[73, 68], [73, 68]], [.ok [.int 1, .int 2]], none⟩

/-- A cursor whose column list cannot be obtained. -/
def exNoColumns : ResultSet := ⟨.error (.ext "driver: bad connection"), [], none⟩

/-- Three rows over `ID`, `EMAIL`; the second one fails to scan. -/
def exBadScan : ResultSet :=
  ⟨.ok [[73, 68], [69, 77, 65, 73, 76]],
    [.ok [.int 1, .null], .error (.ext "unsupported column type"), .ok [.int 3, .null]], none⟩

/-- The bytes of `user_id`. -/
def exUserId : GoString := [117, 115, 101, 114, 95, 105, 100]

/-- The bytes of `dept`. -/
def exDept : GoString := [100, 101, 112, 116]

/-- A "get user by id" tool: one required integer bind parameter `user_id`. -/
def exGetUser (rs : ResultSet) : Tool :=
  { exTool rs with Parameters := [⟨exUserId, .integer, none⟩] }

/-- A tool with the bind parameters `dept` (string) and `user_id` (integer), in this order. -/
def exTwoParams (rs : ResultSet) : Tool :=
  { exTool rs with Parameters := [⟨exDept, .string, none⟩, ⟨exUserId, .integer, none⟩] }

/-- A template resolver that changes the statement: it appends the byte `T`. -/
def exResolveAppend : tools.Parameters → GoString → GoMap → Except GoError GoString :=
  fun _ statement _ => .ok (statement ++ [84])

/-- The bytes of `SENIORITY`. -/
def exSeniority : GoString := [83, 69, 78, 73, 79, 82, 73, 84, 89]

/-- The bytes of `MONTHS_OLD`. -/
def exMonthsOld : GoString := [77, 79, 78, 84, 72, 83, 95, 79, 76, 68]

/-- Two rows over the columns `ID`, `SENIORITY`, `MONTHS_OLD`, the last two computed. -/
def exComplex : ResultSet :=
  ⟨.ok [[73, 68], exSeniority, exMonthsOld],
    [.ok [.int 2, .bytes [83], .int 360], .ok [.int 4, .bytes [74], .int 420]], none⟩

end oraclesql

namespace oraclesql

/-! ## Building one record -/

theorem mem_fillMap (values : List Value) (k : GoString) :
    ∀ (cols : List GoString) (i : Nat) (vMap : GoMap),
      k ∈ fillMap values cols i vMap ↔ k ∈ cols ∨ k ∈ vMap
  | [], _, _ => by simp [fillMap]
  | col :: cols, i, vMap => by
      rw [fillMap, mem_fillMap values k cols (i + 1), Finmap.mem_insert, List.mem_cons]
      tauto

theorem lookup_fillMap_of_not_mem (values : List Value) (k : GoString) :
    ∀ (cols : List GoString) (i : Nat) (vMap : GoMap), k ∉ cols →
      (fillMap values cols i vMap).lookup k = vMap.lookup k
  | [], _, _, _ => by simp [fillMap]
  | col :: cols, i, vMap, hk => by
      rw [List.mem_cons, not_or] at hk
      rw [fillMap, lookup_fillMap_of_not_mem values k cols (i + 1) _ hk.2,
        Finmap.lookup_insert_of_ne _ hk.1]

theorem lookup_fillMap_of_nodup (values : List Value) :
    ∀ (cols : List GoString) (i : Nat) (vMap : GoMap), cols.Nodup →
      ∀ (j : Nat) (hj : j < cols.length),
        (fillMap values cols i vMap).lookup (cols.get ⟨j, hj⟩)
          = some (normalize (values.getD (i + j) .null))
  | [], _, _, _, j, hj => by simp at hj
  | col :: cols, i, vMap, hnd, j, hj => by
      rw [List.nodup_cons] at hnd
      cases j with
      | zero =>
        rw [fillMap]
        simp only [List.get_eq_getElem, List.getElem_cons_zero, Nat.add_zero]
        rw [lookup_fillMap_of_not_mem values col cols (i + 1) _ hnd.1, Finmap.lookup_insert]
      | succ j =>
        have hj2 : j < cols.length := by simpa using hj
        have := lookup_fillMap_of_nodup values cols (i + 1) (vMap.insert col
          (normalize (values.getD i .null))) hnd.2 j hj2
        rw [fillMap]
        simp only [List.get_eq_getElem, List.getElem_cons_succ] at this ⊢
        rw [this]
        congr 3
        omega

theorem mem_buildRecord (columns : List GoString) (values : List Value) (k : GoString) :
    k ∈ buildRecord columns values ↔ k ∈ columns := by
  simp [buildRecord, mem_fillMap, Finmap.not_mem_empty]

theorem lookup_buildRecord (columns : List GoString) (values : List Value)
    (hnd : columns.Nodup) (i : Nat) (hi : i < columns.length) :
    (buildRecord columns values).lookup (columns.get ⟨i, hi⟩)
      = some (normalize (values.getD i .null)) := by
  have := lookup_fillMap_of_nodup values columns 0 ∅ hnd i hi
  simpa [buildRecord] using this

/-! ## The row loop -/

theorem scanRow_eq_ok {dest : Nat} {row : Except GoError (List Value)} {values : List Value}
    (h : scanRow dest row = .ok values) : row = .ok values ∧ values.length = dest := by
  cases row with
  | error err => simp [scanRow] at h
  | ok vals =>
    by_cases hl : vals.length = dest
    · simp [scanRow, hl] at h
      subst h
      exact ⟨rfl, hl⟩
    · simp [scanRow, hl] at h

/-- The slice after appending the records `recs` one by one. -/
theorem toList_foldl_append (recs : List GoMap) :
    ∀ out : GoSlice GoMap, (recs.foldl GoSlice.append out).toList = out.toList ++ recs := by
  induction recs with
  | nil => intro out; simp
  | cons r recs ih =>
    intro out
    rw [List.foldl_cons, ih]
    cases out <;> simp [GoSlice.append, GoSlice.toList]

/-- Closed form of the row loop on an open cursor: either every pending row scans and the loop
returns the slice extended by one record per row, leaving the cursor exhausted and closed, or
the first row that fails to scan ends the loop with the wrapped scan error and no result,
leaving the rows behind it unread. -/
theorem rowLoop_spec (columns : List GoString) :
    ∀ (pending : List (Except GoError (List Value))) (bound : Nat) (rows : Rows)
      (out : GoSlice GoMap),
      rows.closed = false → rows.pending = pending → pending.length < bound →
      (∃ vss : List (List Value), pending = vss.map Except.ok ∧
          (∀ vs ∈ vss, vs.length = columns.length) ∧
          rowLoop columns bound rows out =
            ((.slice ((vss.map (buildRecord columns)).foldl GoSlice.append out), none),
              { rows with pending := [], current := none, closed := true,
                          lasterr := rows.iterErr }))
      ∨ (∃ (vss : List (List Value)) (bad : Except GoError (List Value))
            (post : List (Except GoError (List Value))) (err : GoError),
          pending = vss.map Except.ok ++ bad :: post ∧
          (∀ vs ∈ vss, vs.length = columns.length) ∧
          scanRow columns.length bad = .error err ∧
          rowLoop columns bound rows out =
            ((.nil, some (.errorf "unable to scan row: %w" err)),
              { rows with pending := post, current := some bad }))
  | [], bound, rows, out, hc, hp, hb => by
      left
      refine ⟨[], rfl, by simp, ?_⟩
      obtain ⟨b, rfl⟩ : ∃ b, bound = b + 1 := ⟨bound - 1, by omega⟩
      simp [rowLoop, Rows.Next, hc, hp]
  | row :: rest, bound, rows, out, hc, hp, hb => by
      obtain ⟨b, rfl⟩ : ∃ b, bound = b + 1 := ⟨bound - 1, by omega⟩
      have hb2 : rest.length < b := by simpa using hb
      cases hs : scanRow columns.length row with
      | error err =>
        right
        refine ⟨[], row, rest, err, rfl, by simp, hs, ?_⟩
        simp [rowLoop, Rows.Next, Rows.Scan, hc, hp, hs]
      | ok values =>
        obtain ⟨hrow, hlen⟩ := scanRow_eq_ok hs
        have hstep : rowLoop columns (b + 1) rows out =
            rowLoop columns b { rows with pending := rest, current := some row }
              (out.append (buildRecord columns values)) := by
          simp [rowLoop, Rows.Next, Rows.Scan, hc, hp, hs]
        rcases rowLoop_spec columns rest b { rows with pending := rest, current := some row }
            (out.append (buildRecord columns values)) hc rfl hb2 with
          ⟨vss, hvss, hl, heq⟩ | ⟨vss, bad, post, err, hvss, hl, hbad, heq⟩
        · left
          refine ⟨values :: vss, by simp [hrow, hvss], ?_, ?_⟩
          · intro vs hvs
            rcases List.mem_cons.mp hvs with rfl | hvs
            · exact hlen
            · exact hl vs hvs
          · rw [hstep, heq]
            simp
        · right
          refine ⟨values :: vss, bad, post, err, by simp [hrow, hvss], ?_, hbad, ?_⟩
          · intro vs hvs
            rcases List.mem_cons.mp hvs with rfl | hvs
            · exact hlen
            · exact hl vs hvs
          · rw [hstep, heq]

/-! ## `Invoke` once the query has returned a cursor -/

theorem invoke_of_executes {h : tools.Helpers} {t : Tool} {params : tools.ParamValues}
    {rs : ResultSet} (hex : Executes h t params rs) :
    (t.Invoke h params).result = (materialize (Rows.start rs)).1.1 ∧
    (t.Invoke h params).err = (materialize (Rows.start rs)).1.2 ∧
    (t.Invoke h params).rows = some (materialize (Rows.start rs)).2.Close := by
  obtain ⟨stmt, ps, h1, h2, h3⟩ := hex
  simp [Tool.Invoke, h1, h2, h3]

/-- The three ways materialization ends: the column list fails; every row scans; a row fails to
scan. -/
theorem materialize_cases (rs : ResultSet) :
    (∃ err, rs.columns = .error err ∧
        materialize (Rows.start rs) =
          ((.nil, some (.errorf "unable to get columns: %w" err)), Rows.start rs))
    ∨ (∃ (columns : List GoString) (vss : List (List Value)),
        rs.columns = .ok columns ∧ rs.rows = vss.map Except.ok ∧
        (∀ vs ∈ vss, vs.length = columns.length) ∧
        materialize (Rows.start rs) =
          ((.slice ((vss.map (buildRecord columns)).foldl GoSlice.append .nil), none),
            { Rows.start rs with pending := [], current := none, closed := true,
                                 lasterr := rs.iterErr }))
    ∨ (∃ (columns : List GoString) (vss : List (List Value))
          (bad : Except GoError (List Value)) (post : List (Except GoError (List Value)))
          (err : GoError),
        rs.columns = .ok columns ∧ rs.rows = vss.map Except.ok ++ bad :: post ∧
        (∀ vs ∈ vss, vs.length = columns.length) ∧
        scanRow columns.length bad = .error err ∧
        materialize (Rows.start rs) =
          ((.nil, some (.errorf "unable to scan row: %w" err)),
            { Rows.start rs with pending := post, current := some bad })) := by
  cases hc : rs.columns with
  | error err =>
    left
    exact ⟨err, rfl, by simp [materialize, Rows.Columns, Rows.start, hc]⟩
  | ok columns =>
    right
    have hm : materialize (Rows.start rs) =
        rowLoop columns (rs.rows.length + 1) (Rows.start rs) .nil := by
      simp [materialize, Rows.Columns, Rows.start, hc]
    rcases rowLoop_spec columns rs.rows (rs.rows.length + 1) (Rows.start rs) .nil rfl rfl
        (Nat.lt_succ_self _) with
      ⟨vss, hvss, hl, heq⟩ | ⟨vss, bad, post, err, hvss, hl, hbad, heq⟩
    · left
      exact ⟨columns, vss, rfl, hvss, hl, by rw [hm, heq]; rfl⟩
    · right
      exact ⟨columns, vss, bad, post, err, rfl, hvss, hl, hbad, by rw [hm, heq]⟩

/-- A successful call, seen from its result set: every row scanned, and the records are the
rows' records in order. -/
theorem invoke_success {h : tools.Helpers} {t : Tool} {params : tools.ParamValues}
    {rs : ResultSet} {columns : List GoString} (hex : Executes h t params rs)
    (hcols : rs.columns = .ok columns) (hok : (t.Invoke h params).err = none) :
    ∃ vss : List (List Value), rs.rows = vss.map Except.ok ∧
      (∀ vs ∈ vss, vs.length = columns.length) ∧
      (t.Invoke h params).result =
        .slice ((vss.map (buildRecord columns)).foldl GoSlice.append .nil) ∧
      (t.Invoke h params).result.records = vss.map (buildRecord columns) := by
  obtain ⟨hres, herr, -⟩ := invoke_of_executes hex
  rcases materialize_cases rs with ⟨err, hc, -⟩ | ⟨cols, vss, hc, hrows, hl, hm⟩ |
      ⟨cols, vss, bad, post, err, hc, hrows, hl, hbad, hm⟩
  · rw [hcols] at hc; cases hc
  · rw [hcols] at hc
    cases hc
    refine ⟨vss, hrows, hl, ?_, ?_⟩
    · rw [hres, hm]
    · rw [hres, hm]
      show (List.foldl GoSlice.append GoSlice.nil _).toList = _
      rw [toList_foldl_append]
      rfl
  · rw [herr, hm] at hok
    cases hok

end oraclesql

namespace oraclesql

/-! ## Properties of `Tool.Invoke` and `Tool.Authorized` -/

/-- C1. Normalization in `Tool.Invoke`: on a successful call whose column names are pairwise
distinct, the record of the `j`-th row maps each column name to the `string` of the same bytes
when the scanned value is a `[]byte` buffer, and to the scanned value itself otherwise; in
particular a NULL column stays null. -/
theorem invoke_normalizes_bytes (h : tools.Helpers) (t : Tool) (params : tools.ParamValues)
    (rs : ResultSet) (columns : List GoString) (hex : Executes h t params rs)
    (hcols : rs.columns = .ok columns) (hnd : columns.Nodup)
    (hok : (t.Invoke h params).err = none)
    (j : Nat) (vals : List Value) (hrow : rs.rows[j]? = some (.ok vals)) :
    ∃ r : GoMap, (t.Invoke h params).result.records[j]? = some r ∧
      ∀ (i : Nat) (hi : i < columns.length),
        (∀ b, vals[i]? = some (.bytes b) → r.lookup (columns.get ⟨i, hi⟩) = some (.str b)) ∧
        (∀ v, vals[i]? = some v → (∀ b, v ≠ .bytes b) →
          r.lookup (columns.get ⟨i, hi⟩) = some v) ∧
        (vals[i]? = some .null → r.lookup (columns.get ⟨i, hi⟩) = some .null) := by
  obtain ⟨vss, hrows, hl, -, hrecs⟩ := invoke_success hex hcols hok
  have hj : vss[j]? = some vals := by
    rw [hrows, List.getElem?_map] at hrow
    cases hv : vss[j]? with
    | none => simp [hv] at hrow
    | some w =>
      simp [hv] at hrow
      rw [hrow]
  refine ⟨buildRecord columns vals, by rw [hrecs, List.getElem?_map, hj]; rfl, ?_⟩
  intro i hi
  have hlook := lookup_buildRecord columns vals hnd i hi
  have hgetD : ∀ v, vals[i]? = some v → vals.getD i .null = v := by
    intro v hv
    simp [List.getD, hv]
  refine ⟨?_, ?_, ?_⟩
  · intro b hb
    rw [hlook, hgetD _ hb]
    rfl
  · intro v hv hnb
    rw [hlook, hgetD _ hv]
    cases v <;> first | rfl | exact absurd rfl (hnb _)
  · intro hn
    rw [hlook, hgetD _ hn]
    rfl

/-- C1 at a concrete input: the binary-encoded email of the first row is returned as text. -/
theorem invoke_normalizes_bytes_witness :
    ∃ r : GoMap, ((exTool exUsers).Invoke exHelpers []).result.records[0]? = some r ∧
      r.lookup [69, 77, 65, 73, 76] = some (.str [97, 64, 98]) :=
  (invoke_normalizes_bytes exHelpers (exTool exUsers) [] exUsers [[73, 68], [69, 77, 65, 73, 76]]
    ⟨[81], [], rfl, rfl, rfl⟩ rfl (by decide) (by decide) 0 [.int 1, .bytes [97, 64, 98]]
    rfl).imp
    (fun _ hr => ⟨hr.1, (hr.2 1 (by decide)).1 [97, 64, 98] rfl⟩)

end oraclesql

namespace oraclesql

/-- C2, as stated, fails: the stages before materialization succeed and the cursor yields zero
rows, and `Invoke` returns no error, but its result is not a non-nil slice of length 0. -/
theorem invoke_zero_rows_counterexample :
    Executes exHelpers (exTool exEmpty) [] exEmpty ∧ exEmpty.rows = [] ∧
    ((exTool exEmpty).Invoke exHelpers []).err = none ∧
    ¬ ∃ out : GoSlice GoMap, ((exTool exEmpty).Invoke exHelpers []).result = .slice out ∧
        out.isNil = false ∧ out.len = 0 := by
  refine ⟨⟨[81], [], rfl, rfl, rfl⟩, rfl, rfl, ?_⟩
  rintro ⟨out, hout, hnil, -⟩
  have hres : ((exTool exEmpty).Invoke exHelpers []).result = .slice .nil := rfl
  rw [hres] at hout
  cases hout
  cases hnil

/-- C2, amended. When template resolution, binding and query execution succeed, the column list
is obtained and the cursor yields zero rows, `Invoke` returns no error and the nil slice
(`var out []any`, never appended to): a sequence of length 0 whose slice value is nil, carried in
an interface value that differs from the untyped nil returned on failure. -/
theorem invoke_zero_rows (h : tools.Helpers) (t : Tool) (params : tools.ParamValues)
    (rs : ResultSet) (columns : List GoString) (hex : Executes h t params rs)
    (hcols : rs.columns = .ok columns) (hrows : rs.rows = []) :
    (t.Invoke h params).err = none ∧
    ∃ out : GoSlice GoMap, (t.Invoke h params).result = .slice out ∧
      out.isNil = true ∧ out.len = 0 ∧ (t.Invoke h params).result ≠ GoAny.nil := by
  obtain ⟨hres, herr, -⟩ := invoke_of_executes hex
  rcases materialize_cases rs with ⟨err, hc, -⟩ | ⟨cols, vss, hc, hr, hl, hm⟩ |
      ⟨cols, vss, bad, post, err, hc, hr, hl, hbad, hm⟩
  · rw [hcols] at hc; cases hc
  · rw [hrows] at hr
    have hv : vss = [] := by
      cases vss with
      | nil => rfl
      | cons v vs => simp at hr
    subst hv
    rw [herr, hres, hm]
    exact ⟨rfl, .nil, rfl, rfl, rfl, by simp⟩
  · rw [hrows] at hr
    simp at hr

/-- C2 amended, at a concrete input: an empty result set. -/
theorem invoke_zero_rows_witness :
    ((exTool exEmpty).Invoke exHelpers []).err = none ∧
    ∃ out : GoSlice GoMap, ((exTool exEmpty).Invoke exHelpers []).result = .slice out ∧
      out.isNil = true ∧ out.len = 0 ∧
      ((exTool exEmpty).Invoke exHelpers []).result ≠ GoAny.nil :=
  invoke_zero_rows exHelpers (exTool exEmpty) [] exEmpty [[73, 68], [69, 77, 65, 73, 76]]
    ⟨[81], [], rfl, rfl, rfl⟩ rfl rfl

/-- C3, the code at a failing input: the cursor yields one row and then the iteration ends with
an error (`Next` returns false, `Err()` is non-nil); `Invoke` never consults `rows.Err()` and
returns the one record materialized so far together with a nil error. -/
theorem invoke_returns_rows_on_iteration_error :
    ((exTool exCut).Invoke exHelpers []).err = none ∧
    ((exTool exCut).Invoke exHelpers []).result.records =
      [buildRecord [[73, 68], [69, 77, 65, 73, 76]] [.int 1, .bytes [97, 64, 98]]] ∧
    ∃ r : Rows, ((exTool exCut).Invoke exHelpers []).rows = some r ∧
      r.Err = some (.ext "context canceled") :=
  ⟨rfl, rfl, _, rfl, rfl⟩

end oraclesql

namespace oraclesql

/-- C4, as stated, fails. On a successful call whose column list reports the name `ID` twice the
one record has a single key, so no enumeration of its keys is the column list; and a record does
not determine a column order at all: the columns `ID`, `EMAIL` and the columns `EMAIL`, `ID`
over the same data give equal records. -/
theorem invoke_keys_in_column_order_counterexample :
    (Executes exHelpers (exTool exDup) [] exDup ∧ exDup.columns = .ok [[73, 68], [73, 68]] ∧
      ((exTool exDup).Invoke exHelpers []).err = none ∧
      ∃ r ∈ ((exTool exDup).Invoke exHelpers []).result.records,
        ¬ ∃ ks : List GoString, ks.Nodup ∧ (∀ k, k ∈ ks ↔ k ∈ r) ∧ ks = [[73, 68], [73, 68]]) ∧
    buildRecord [[73, 68], [69, 77, 65, 73, 76]] [.int 1, .null] =
      buildRecord [[69, 77, 65, 73, 76], [73, 68]] [.null, .int 1] := by
  refine ⟨⟨⟨[81], [], rfl, rfl, rfl⟩, rfl, rfl,
    buildRecord [[73, 68], [73, 68]] [.int 1, .int 2], ?_, ?_⟩, by decide⟩
  · show _ ∈ [buildRecord [[73, 68], [73, 68]] [.int 1, .int 2]]
    exact List.mem_singleton.mpr rfl
  · rintro ⟨ks, hnd, -, rfl⟩
    exact absurd hnd (by decide)

/-- C4, amended. For every successful invocation of `Tool.Invoke` and every record in its
result, the record is a Go map, which has no key order, and its keys are exactly the column
names reported for the query, one key for each distinct name (as many keys as columns when the
names are pairwise distinct); the key set is the same for all records of the invocation. -/
theorem invoke_record_keys (h : tools.Helpers) (t : Tool) (params : tools.ParamValues)
    (rs : ResultSet) (columns : List GoString) (hex : Executes h t params rs)
    (hcols : rs.columns = .ok columns) (hok : (t.Invoke h params).err = none) :
    (∀ r ∈ (t.Invoke h params).result.records,
      (∀ k, k ∈ r ↔ k ∈ columns) ∧ r.keys = columns.toFinset ∧
      r.keys.card = columns.dedup.length ∧ (columns.Nodup → r.keys.card = columns.length)) ∧
    (∀ r ∈ (t.Invoke h params).result.records, ∀ r' ∈ (t.Invoke h params).result.records,
      r.keys = r'.keys) := by
  obtain ⟨vss, -, -, -, hrecs⟩ := invoke_success hex hcols hok
  have hkeys : ∀ r ∈ (t.Invoke h params).result.records, r.keys = columns.toFinset := by
    intro r hr
    rw [hrecs, List.mem_map] at hr
    obtain ⟨vs, -, rfl⟩ := hr
    ext k
    rw [Finmap.mem_keys, mem_buildRecord, List.mem_toFinset]
  refine ⟨fun r hr => ⟨?_, hkeys r hr, ?_, ?_⟩, fun r hr r' hr' => ?_⟩
  · intro k
    rw [← Finmap.mem_keys, hkeys r hr, List.mem_toFinset]
  · rw [hkeys r hr, List.card_toFinset]
  · intro hnd
    rw [hkeys r hr, List.toFinset_card_of_nodup hnd]
  · rw [hkeys r hr, hkeys r' hr']

/-- C4 amended, at a concrete input: both records of the two-row result have the keys `ID` and
`EMAIL`. -/
theorem invoke_record_keys_witness :
    (∀ r ∈ ((exTool exUsers).Invoke exHelpers []).result.records,
      (∀ k, k ∈ r ↔ k ∈ [[73, 68], [69, 77, 65, 73, 76]]) ∧
      r.keys = [[73, 68], [69, 77, 65, 73, 76]].toFinset ∧
      r.keys.card = [[(73 : Byte), 68], [69, 77, 65, 73, 76]].dedup.length ∧
      ([[(73 : Byte), 68], [69, 77, 65, 73, 76]].Nodup →
        r.keys.card = [[(73 : Byte), 68], [69, 77, 65, 73, 76]].length)) ∧
    (∀ r ∈ ((exTool exUsers).Invoke exHelpers []).result.records,
      ∀ r' ∈ ((exTool exUsers).Invoke exHelpers []).result.records, r.keys = r'.keys) :=
  invoke_record_keys exHelpers (exTool exUsers) [] exUsers [[73, 68], [69, 77, 65, 73, 76]]
    ⟨[81], [], rfl, rfl, rfl⟩ rfl rfl

/-- C5. When every row the cursor yields scans, `Invoke` succeeds with exactly one record per
row, the `i`-th record being the one built from the `i`-th row: none dropped, duplicated or
reordered. -/
theorem invoke_one_record_per_row (h : tools.Helpers) (t : Tool) (params : tools.ParamValues)
    (rs : ResultSet) (columns : List GoString) (hex : Executes h t params rs)
    (hcols : rs.columns = .ok columns)
    (hscan : ∀ row ∈ rs.rows, ∃ vals, scanRow columns.length row = .ok vals) :
    (t.Invoke h params).err = none ∧
    (t.Invoke h params).result.records.length = rs.rows.length ∧
    ∀ (i : Nat) (vals : List Value), rs.rows[i]? = some (.ok vals) →
      (t.Invoke h params).result.records[i]? = some (buildRecord columns vals) := by
  obtain ⟨hres, herr, -⟩ := invoke_of_executes hex
  rcases materialize_cases rs with ⟨err, hc, -⟩ | ⟨cols, vss, hc, hr, hl, hm⟩ |
      ⟨cols, vss, bad, post, err, hc, hr, hl, hbad, hm⟩
  · rw [hcols] at hc; cases hc
  · rw [hcols] at hc
    cases hc
    have hrecs : (t.Invoke h params).result.records = vss.map (buildRecord columns) := by
      rw [hres, hm]
      show (List.foldl GoSlice.append GoSlice.nil _).toList = _
      rw [toList_foldl_append]
      rfl
    refine ⟨by rw [herr, hm], by rw [hrecs, hr]; simp, ?_⟩
    intro i vals hi
    rw [hrecs, List.getElem?_map]
    rw [hr, List.getElem?_map] at hi
    cases hv : vss[i]? with
    | none => simp [hv] at hi
    | some w =>
      simp [hv] at hi
      simp [hi]
  · rw [hcols] at hc
    cases hc
    obtain ⟨vals, hvals⟩ := hscan bad (by rw [hr]; simp)
    rw [hbad] at hvals
    cases hvals

/-- C5 at a concrete input: two rows give two records, in row order. -/
theorem invoke_one_record_per_row_witness :
    ((exTool exUsers).Invoke exHelpers []).err = none ∧
    ((exTool exUsers).Invoke exHelpers []).result.records.length = exUsers.rows.length ∧
    ((exTool exUsers).Invoke exHelpers []).result.records[1]? =
      some (buildRecord [[73, 68], [69, 77, 65, 73, 76]] [.int 7, .null]) :=
  have hw := invoke_one_record_per_row exHelpers (exTool exUsers) [] exUsers
    [[73, 68], [69, 77, 65, 73, 76]] ⟨[81], [], rfl, rfl, rfl⟩ rfl
    (fun row hrow => by
      simp only [exUsers, List.mem_cons, List.mem_singleton, List.not_mem_nil, or_false] at hrow
      rcases hrow with rfl | rfl <;> exact ⟨_, rfl⟩)
  ⟨hw.1, hw.2.1, hw.2.2 1 [.int 7, .null] rfl⟩

end oraclesql

namespace oraclesql

/-- C6. Fail-fast before execution: when template resolution fails, or it succeeds and
bind-parameter extraction fails, `Invoke` returns a nil result with an error that wraps the
error of the failed stage, no query is issued to the database and no cursor is obtained. -/
theorem invoke_fails_before_query (h : tools.Helpers) (t : Tool) (params : tools.ParamValues)
    (e : GoError)
    (hfail :
      h.ResolveTemplateParams t.TemplateParameters t.Statement (tools.ParamValues.AsMap params)
        = .error e ∨
      ∃ newStatement,
        h.ResolveTemplateParams t.TemplateParameters t.Statement
          (tools.ParamValues.AsMap params) = .ok newStatement ∧
        h.GetParams t.Parameters (tools.ParamValues.AsMap params) = .error e) :
    (t.Invoke h params).result = GoAny.nil ∧
    (∃ w, (t.Invoke h params).err = some w ∧ w.Unwrap = some e) ∧
    (t.Invoke h params).queries = [] ∧ (t.Invoke h params).rows = none := by
  rcases hfail with h1 | ⟨stmt, h1, h2⟩
  · simp [Tool.Invoke, h1, GoError.Unwrap]
  · simp [Tool.Invoke, h1, h2, GoError.Unwrap]

/-- C6 at concrete inputs: a request without the required `user_id`, and a rejected template
value. -/
theorem invoke_fails_before_query_witness :
    (((exGetUser exUsers).Invoke exHelpers []).result = GoAny.nil ∧
      (∃ w, ((exGetUser exUsers).Invoke exHelpers []).err = some w ∧
        w.Unwrap = some (.missingParameter exUserId)) ∧
      ((exGetUser exUsers).Invoke exHelpers []).queries = [] ∧
      ((exGetUser exUsers).Invoke exHelpers []).rows = none) ∧
    (((exTool exUsers).Invoke ⟨exResolveReject, tools.GetParams⟩ []).result = GoAny.nil ∧
      (∃ w, ((exTool exUsers).Invoke ⟨exResolveReject, tools.GetParams⟩ []).err = some w ∧
        w.Unwrap = some (.ext "template value rejected")) ∧
      ((exTool exUsers).Invoke ⟨exResolveReject, tools.GetParams⟩ []).queries = [] ∧
      ((exTool exUsers).Invoke ⟨exResolveReject, tools.GetParams⟩ []).rows = none) :=
  ⟨invoke_fails_before_query exHelpers (exGetUser exUsers) [] (.missingParameter exUserId)
      (Or.inr ⟨[81], rfl, rfl⟩),
    invoke_fails_before_query ⟨exResolveReject, tools.GetParams⟩ (exTool exUsers) []
      (.ext "template value rejected") (Or.inl rfl)⟩

/-- The row loop when a row fails to scan after `pre` rows that scanned. -/
theorem rowLoop_scan_failure (columns : List GoString) (bad : Except GoError (List Value))
    (post : List (Except GoError (List Value))) (e : GoError)
    (hbad : scanRow columns.length bad = .error e) :
    ∀ (pre : List (Except GoError (List Value))) (bound : Nat) (rows : Rows)
      (out : GoSlice GoMap),
      rows.closed = false → rows.pending = pre ++ bad :: post →
      (pre ++ bad :: post).length < bound →
      (∀ row ∈ pre, ∃ vals, scanRow columns.length row = .ok vals) →
      rowLoop columns bound rows out =
        ((.nil, some (.errorf "unable to scan row: %w" e)),
          { rows with pending := post, current := some bad })
  | [], bound, rows, out, hc, hp, hb, _ => by
      obtain ⟨b, rfl⟩ : ∃ b, bound = b + 1 := ⟨bound - 1, by omega⟩
      simp at hp
      simp [rowLoop, Rows.Next, Rows.Scan, hc, hp, hbad]
  | row :: pre, bound, rows, out, hc, hp, hb, hpre => by
      obtain ⟨b, rfl⟩ : ∃ b, bound = b + 1 := ⟨bound - 1, by omega⟩
      obtain ⟨vals, hvals⟩ := hpre row (List.mem_cons_self _ _)
      have hp2 : rows.pending = row :: (pre ++ bad :: post) := by simpa using hp
      have hstep : rowLoop columns (b + 1) rows out =
          rowLoop columns b { rows with pending := pre ++ bad :: post, current := some row }
            (out.append (buildRecord columns vals)) := by
        simp [rowLoop, Rows.Next, Rows.Scan, hc, hp2, hvals]
      rw [hstep]
      exact rowLoop_scan_failure columns bad post e hbad pre b
        { rows with pending := pre ++ bad :: post, current := some row } _ hc rfl
        (by simpa using hb) (fun r hr => hpre r (List.mem_cons_of_mem _ hr))

/-- C7. All-or-nothing on scan failure: when the row at position `pre.length` fails to scan
after the rows before it scanned, `Invoke` returns a nil result (so none of the records already
materialized) with an error wrapping the scan error, and the rows behind the failing one are
left unread in the cursor. -/
theorem invoke_scan_failure (h : tools.Helpers) (t : Tool) (params : tools.ParamValues)
    (rs : ResultSet) (columns : List GoString) (pre post : List (Except GoError (List Value)))
    (bad : Except GoError (List Value)) (e : GoError)
    (hex : Executes h t params rs) (hcols : rs.columns = .ok columns)
    (hrows : rs.rows = pre ++ bad :: post)
    (hpre : ∀ row ∈ pre, ∃ vals, scanRow columns.length row = .ok vals)
    (hbad : scanRow columns.length bad = .error e) :
    (t.Invoke h params).result = GoAny.nil ∧ (t.Invoke h params).result.records = [] ∧
    (∃ w, (t.Invoke h params).err = some w ∧ w = .errorf "unable to scan row: %w" e ∧
      w.Unwrap = some e) ∧
    ∃ r : Rows, (t.Invoke h params).rows = some r ∧ r.pending = post := by
  obtain ⟨hres, herr, hr⟩ := invoke_of_executes hex
  have hm : materialize (Rows.start rs) =
      ((.nil, some (.errorf "unable to scan row: %w" e)),
        { Rows.start rs with pending := post, current := some bad }) := by
    have h1 : materialize (Rows.start rs) =
        rowLoop columns (rs.rows.length + 1) (Rows.start rs) .nil := by
      simp [materialize, Rows.Columns, Rows.start, hcols]
    rw [h1]
    exact rowLoop_scan_failure columns bad post e hbad pre _ _ _ rfl hrows
      (by rw [hrows]; exact Nat.lt_succ_self _) hpre
  rw [hres, herr, hr, hm]
  exact ⟨rfl, rfl, ⟨_, rfl, rfl, rfl⟩, _, rfl, rfl⟩

/-- C7 at a concrete input: the second of three rows fails to scan; the third is never read. -/
theorem invoke_scan_failure_witness :
    ((exTool exBadScan).Invoke exHelpers []).result = GoAny.nil ∧
    ((exTool exBadScan).Invoke exHelpers []).result.records = [] ∧
    (∃ w, ((exTool exBadScan).Invoke exHelpers []).err = some w ∧
      w = .errorf "unable to scan row: %w" (.ext "unsupported column type") ∧
      w.Unwrap = some (.ext "unsupported column type")) ∧
    ∃ r : Rows, ((exTool exBadScan).Invoke exHelpers []).rows = some r ∧
      r.pending = [.ok [.int 3, .null]] :=
  invoke_scan_failure exHelpers (exTool exBadScan) [] exBadScan [[73, 68], [69, 77, 65, 73, 76]]
    [.ok [.int 1, .null]] [.ok [.int 3, .null]] (.error (.ext "unsupported column type"))
    (.ext "unsupported column type") ⟨[81], [], rfl, rfl, rfl⟩ rfl rfl
    (fun row hrow => by
      simp only [List.mem_singleton] at hrow
      subst hrow
      exact ⟨_, rfl⟩)
    rfl

end oraclesql

namespace oraclesql

/-- C8. `Tool.Authorized` returns true if and only if the `AuthRequired` list of the tool is
empty or every name in it occurs among the presented service names; in particular it returns
false when some required service is presented and another one is not. -/
theorem authorized_iff (t : Tool) (verifiedAuthServices : List GoString) :
    (t.Authorized verifiedAuthServices = true ↔
      (t.AuthRequired = [] ∨ ∀ a ∈ t.AuthRequired, a ∈ verifiedAuthServices)) ∧
    ((∃ a ∈ t.AuthRequired, a ∈ verifiedAuthServices) →
      (∃ a ∈ t.AuthRequired, a ∉ verifiedAuthServices) →
      t.Authorized verifiedAuthServices = false) := by
  have hiff : t.Authorized verifiedAuthServices = true ↔
      (t.AuthRequired = [] ∨ ∀ a ∈ t.AuthRequired, a ∈ verifiedAuthServices) := by
    unfold Tool.Authorized tools.IsAuthorized
    by_cases hempty : t.AuthRequired.length = 0
    · simp [hempty, List.length_eq_zero.mp hempty]
    · have hne : t.AuthRequired ≠ [] := fun hnil => hempty (by rw [hnil]; rfl)
      simp [hempty, hne, List.all_eq_true]
  refine ⟨hiff, ?_⟩
  rintro - ⟨a, ha, hna⟩
  cases hres : t.Authorized verifiedAuthServices with
  | false => rfl
  | true =>
    rcases hiff.mp hres with hnil | hall
    · rw [hnil] at ha
      cases ha
    · exact absurd (hall a ha) hna

/-- C9. Cursor release: whenever the database query succeeds and returns a cursor, the cursor is
closed when `Invoke` returns, whichever way it returns (normal completion, failure to obtain the
column list, failure to scan a row). -/
theorem invoke_closes_cursor (h : tools.Helpers) (t : Tool) (params : tools.ParamValues)
    (rs : ResultSet) (hex : Executes h t params rs) :
    ∃ r : Rows, (t.Invoke h params).rows = some r ∧ r.closed = true := by
  obtain ⟨-, -, hr⟩ := invoke_of_executes hex
  exact ⟨_, hr, rfl⟩

/-- C9 at concrete inputs, one for each exit path: normal completion, a column list that cannot
be obtained, and a row that fails to scan partway through. -/
theorem invoke_closes_cursor_witness :
    ((((exTool exUsers).Invoke exHelpers []).err = none ∧
      ∃ r : Rows, ((exTool exUsers).Invoke exHelpers []).rows = some r ∧ r.closed = true) ∧
    (((exTool exNoColumns).Invoke exHelpers []).err =
        some (.errorf "unable to get columns: %w" (.ext "driver: bad connection")) ∧
      ∃ r : Rows, ((exTool exNoColumns).Invoke exHelpers []).rows = some r ∧
        r.closed = true)) ∧
    (((exTool exBadScan).Invoke exHelpers []).err =
        some (.errorf "unable to scan row: %w" (.ext "unsupported column type")) ∧
      ∃ r : Rows, ((exTool exBadScan).Invoke exHelpers []).rows = some r ∧ r.closed = true) :=
  ⟨⟨⟨rfl, invoke_closes_cursor exHelpers (exTool exUsers) [] exUsers ⟨[81], [], rfl, rfl, rfl⟩⟩,
    ⟨rfl, invoke_closes_cursor exHelpers (exTool exNoColumns) [] exNoColumns
      ⟨[81], [], rfl, rfl, rfl⟩⟩⟩,
    ⟨rfl, invoke_closes_cursor exHelpers (exTool exBadScan) [] exBadScan
      ⟨[81], [], rfl, rfl, rfl⟩⟩⟩

/-- The binder `tools.GetParams`, when it succeeds: one value per bind spec, in declaration
order, carrying the name of its spec, and equal to the value of the request for that name
whenever the request has one. -/
theorem getParams_spec :
    ∀ (specs : tools.Parameters) (paramsMap : GoMap) (ps : tools.ParamValues),
      tools.GetParams specs paramsMap = .ok ps →
      ps.length = specs.length ∧
      ∀ (i : Nat) (hi : i < specs.length),
        (ps[i]?).map (fun p => p.Name) = some (specs.get ⟨i, hi⟩).Name ∧
        ∀ v, paramsMap.lookup (specs.get ⟨i, hi⟩).Name = some v →
          (tools.ParamValues.AsSlice ps)[i]? = some v
  | [], paramsMap, ps, hps => by
      simp [tools.GetParams] at hps
      subst hps
      exact ⟨rfl, fun i hi => absurd hi (by simp)⟩
  | p :: specs, paramsMap, ps, hps => by
      rw [tools.GetParams] at hps
      have key : ∃ (x : Value) (rest : tools.ParamValues),
          tools.GetParams specs paramsMap = .ok rest ∧ ps = ⟨p.Name, x⟩ :: rest ∧
          ∀ v, paramsMap.lookup p.Name = some v → x = v := by
        cases hl : paramsMap.lookup p.Name with
        | some v =>
          rw [hl] at hps
          by_cases hk : tools.conforms p.Kind v = true
          · simp only [hk, if_true] at hps
            cases hrest : tools.GetParams specs paramsMap with
            | error err => rw [hrest] at hps; cases hps
            | ok rest =>
              rw [hrest] at hps
              cases hps
              exact ⟨v, rest, rfl, rfl, fun w hw => by cases hw; rfl⟩
          · simp only [hk] at hps
            cases hps
        | none =>
          rw [hl] at hps
          cases hd : p.Default with
          | none => rw [hd] at hps; cases hps
          | some d =>
            rw [hd] at hps
            cases hrest : tools.GetParams specs paramsMap with
            | error err => rw [hrest] at hps; cases hps
            | ok rest =>
              rw [hrest] at hps
              cases hps
              exact ⟨d, rest, rfl, rfl, fun w hw => by cases hw⟩
      obtain ⟨x, rest, hrest, rfl, hx⟩ := key
      obtain ⟨hlen, hget⟩ := getParams_spec specs paramsMap rest hrest
      refine ⟨by simp [hlen], ?_⟩
      intro i hi
      cases i with
      | zero =>
        refine ⟨by simp, ?_⟩
        intro v hv
        simp only [List.get_eq_getElem, List.getElem_cons_zero] at hv
        rw [hx v hv]
        simp [tools.ParamValues.AsSlice]
      | succ i =>
        have hi2 : i < specs.length := by simpa using hi
        obtain ⟨hn, hv⟩ := hget i hi2
        refine ⟨by simpa using hn, ?_⟩
        intro v hlook
        simp only [List.get_eq_getElem, List.getElem_cons_succ] at hlook
        have := hv v (by simpa using hlook)
        simpa [tools.ParamValues.AsSlice] using this

/-- C10. When template resolution and binding both succeed, `Invoke` issues the database query
exactly once, with the statement text the template resolver returned and with one argument per
bind parameter spec of the tool, in declaration order, the `i`-th argument being the value of
the request for the `i`-th bind spec. -/
theorem invoke_queries_once
    (resolve : tools.Parameters → GoString → GoMap → Except GoError GoString) (t : Tool)
    (params : tools.ParamValues) (newStatement : GoString) (newParams : tools.ParamValues)
    (hres : resolve t.TemplateParameters t.Statement (tools.ParamValues.AsMap params)
      = .ok newStatement)
    (hbind : tools.GetParams t.Parameters (tools.ParamValues.AsMap params) = .ok newParams) :
    (t.Invoke ⟨resolve, tools.GetParams⟩ params).queries
      = [(newStatement, tools.ParamValues.AsSlice newParams)] ∧
    (tools.ParamValues.AsSlice newParams).length = t.Parameters.length ∧
    ∀ (i : Nat) (hi : i < t.Parameters.length) (v : Value),
      (tools.ParamValues.AsMap params).lookup (t.Parameters.get ⟨i, hi⟩).Name = some v →
      (tools.ParamValues.AsSlice newParams)[i]? = some v := by
  obtain ⟨hlen, hget⟩ := getParams_spec _ _ _ hbind
  refine ⟨?_, by simpa [tools.ParamValues.AsSlice] using hlen, fun i hi v hv => (hget i hi).2 v hv⟩
  cases hq : t.DB.QueryContext newStatement (tools.ParamValues.AsSlice newParams) with
  | error err => simp [Tool.Invoke, hres, hbind, hq]
  | ok rs => simp [Tool.Invoke, hres, hbind, hq]

/-- C10 at a concrete input: the request gives `user_id` before `dept`; the query is issued once
with the resolved statement `QT` and the arguments in spec order, `dept` then `user_id`. -/
theorem invoke_queries_once_witness :
    ((exTwoParams exUsers).Invoke ⟨exResolveAppend, tools.GetParams⟩
        [⟨exUserId, .int 1⟩, ⟨exDept, .str [69]⟩]).queries
      = [([81, 84], [.str [69], .int 1])] ∧
    (exTwoParams exUsers).Statement = [81] :=
  ⟨(invoke_queries_once exResolveAppend (exTwoParams exUsers)
      [⟨exUserId, .int 1⟩, ⟨exDept, .str [69]⟩] [81, 84]
      [⟨exDept, .str [69]⟩, ⟨exUserId, .int 1⟩] rfl rfl).1, rfl⟩

end oraclesql

namespace oraclesql

/-- C11. For every successful invocation of `Tool.Invoke`, every column name reported by the
database for the query (computed and aliased columns included) is a key of every record, no
record has any other key, and so all records have identical column sets. -/
theorem invoke_identical_column_sets (h : tools.Helpers) (t : Tool)
    (params : tools.ParamValues) (rs : ResultSet) (columns : List GoString)
    (hex : Executes h t params rs) (hcols : rs.columns = .ok columns)
    (hok : (t.Invoke h params).err = none) :
    (∀ r ∈ (t.Invoke h params).result.records, ∀ k : GoString,
      k ∈ r.keys ↔ k ∈ columns) ∧
    (∀ r ∈ (t.Invoke h params).result.records, ∀ col ∈ columns, ∃ v, r.lookup col = some v) ∧
    (∀ r ∈ (t.Invoke h params).result.records, ∀ r' ∈ (t.Invoke h params).result.records,
      ∀ k : GoString, k ∈ r.keys ↔ k ∈ r'.keys) := by
  obtain ⟨vss, -, -, -, hrecs⟩ := invoke_success hex hcols hok
  have hmem : ∀ r ∈ (t.Invoke h params).result.records, ∀ k : GoString,
      k ∈ r.keys ↔ k ∈ columns := by
    intro r hr k
    rw [hrecs, List.mem_map] at hr
    obtain ⟨vs, -, rfl⟩ := hr
    rw [Finmap.mem_keys, mem_buildRecord]
  refine ⟨hmem, ?_, ?_⟩
  · intro r hr col hcol
    exact Finmap.mem_iff.mp (Finmap.mem_keys.mp ((hmem r hr col).mpr hcol))
  · intro r hr r' hr' k
    rw [hmem r hr k, hmem r' hr' k]

/-- C11 at a concrete input: both records of a query with computed columns have the keys
`SENIORITY` and `MONTHS_OLD`. -/
theorem invoke_identical_column_sets_witness :
    (∀ r ∈ ((exTool exComplex).Invoke exHelpers []).result.records, ∀ k : GoString,
      k ∈ r.keys ↔ k ∈ [[73, 68], exSeniority, exMonthsOld]) ∧
    (∀ r ∈ ((exTool exComplex).Invoke exHelpers []).result.records,
      ∀ col ∈ [[73, 68], exSeniority, exMonthsOld], ∃ v, r.lookup col = some v) ∧
    (∀ r ∈ ((exTool exComplex).Invoke exHelpers []).result.records,
      ∀ r' ∈ ((exTool exComplex).Invoke exHelpers []).result.records,
      ∀ k : GoString, k ∈ r.keys ↔ k ∈ r'.keys) :=
  invoke_identical_column_sets exHelpers (exTool exComplex) [] exComplex
    [[73, 68], exSeniority, exMonthsOld] ⟨[81], [], rfl, rfl, rfl⟩ rfl rfl

/-- Looking up a column name in the map filled from `cols`: the value stored for the last
position that bears the name. -/
theorem lookup_fillMap_last (values : List Value) :
    ∀ (cols : List GoString) (i : Nat) (vMap : GoMap) (j : Nat) (hj : j < cols.length),
      (∀ (j' : Nat) (hj' : j' < cols.length), j < j' →
        cols.get ⟨j', hj'⟩ ≠ cols.get ⟨j, hj⟩) →
      (fillMap values cols i vMap).lookup (cols.get ⟨j, hj⟩)
        = some (normalize (values.getD (i + j) .null))
  | [], _, _, j, hj, _ => by simp at hj
  | col :: cols, i, vMap, 0, _, hlast => by
      have hnot : col ∉ cols := by
        intro hmem
        obtain ⟨n, hn, hget⟩ := List.getElem_of_mem hmem
        exact hlast (n + 1) (by simpa using hn) (Nat.succ_pos n) (by simpa using hget)
      rw [fillMap]
      simp only [List.get_eq_getElem, List.getElem_cons_zero, Nat.add_zero]
      rw [lookup_fillMap_of_not_mem values col cols (i + 1) _ hnot, Finmap.lookup_insert]
  | col :: cols, i, vMap, j + 1, hj, hlast => by
      have hj2 : j < cols.length := by simpa using hj
      have hlast2 : ∀ (j' : Nat) (hj' : j' < cols.length), j < j' →
          cols.get ⟨j', hj'⟩ ≠ cols.get ⟨j, hj2⟩ := by
        intro j' hj' hlt
        have := hlast (j' + 1) (by simpa using hj') (by omega)
        simpa using this
      have := lookup_fillMap_last values cols (i + 1)
        (vMap.insert col (normalize (values.getD i .null))) j hj2 hlast2
      rw [fillMap]
      simp only [List.get_eq_getElem, List.getElem_cons_succ] at this ⊢
      rw [this]
      congr 3
      omega

/-- C12. Duplicate column names collapse: in every record built by `Tool.Invoke` a column name
has a single entry, whose value is the normalized value scanned for the last position bearing
that name; every record has exactly as many entries as there are distinct column names, which
is fewer than the number of columns whenever a name repeats. -/
theorem invoke_duplicate_columns_collapse (h : tools.Helpers) (t : Tool)
    (params : tools.ParamValues) (rs : ResultSet) (columns : List GoString)
    (hex : Executes h t params rs) (hcols : rs.columns = .ok columns)
    (hok : (t.Invoke h params).err = none)
    (j : Nat) (vals : List Value) (hrow : rs.rows[j]? = some (.ok vals)) :
    ∃ r : GoMap, (t.Invoke h params).result.records[j]? = some r ∧
      (∀ (i : Nat) (hi : i < columns.length),
        (∀ (i' : Nat) (hi' : i' < columns.length), i < i' →
          columns.get ⟨i', hi'⟩ ≠ columns.get ⟨i, hi⟩) →
        r.lookup (columns.get ⟨i, hi⟩) = some (normalize (vals.getD i .null))) ∧
      (∀ col ∈ columns, r.keys.val.count col = 1) ∧
      r.keys.card = columns.dedup.length ∧
      (¬ columns.Nodup → r.keys.card < columns.length) := by
  obtain ⟨vss, hrows, hl, -, hrecs⟩ := invoke_success hex hcols hok
  have hj : vss[j]? = some vals := by
    rw [hrows, List.getElem?_map] at hrow
    cases hv : vss[j]? with
    | none => simp [hv] at hrow
    | some w =>
      simp [hv] at hrow
      rw [hrow]
  have hkeys : (buildRecord columns vals).keys = columns.toFinset := by
    ext k
    rw [Finmap.mem_keys, mem_buildRecord, List.mem_toFinset]
  refine ⟨buildRecord columns vals, by rw [hrecs, List.getElem?_map, hj]; rfl, ?_, ?_, ?_, ?_⟩
  · intro i hi hlast
    have := lookup_fillMap_last vals columns 0 ∅ i hi hlast
    simpa [buildRecord] using this
  · intro col hcol
    exact Multiset.count_eq_one_of_mem (buildRecord columns vals).keys.nodup
      (Finset.mem_def.mp (by rw [hkeys, List.mem_toFinset]; exact hcol))
  · rw [hkeys, List.card_toFinset]
  · intro hdup
    rw [hkeys, List.card_toFinset]
    rcases Nat.lt_or_ge columns.dedup.length columns.length with hlt | hge
    · exact hlt
    · exact absurd (List.dedup_eq_self.mp
        ((List.dedup_sublist columns).eq_of_length_le hge)) hdup

/-- C12 at a concrete input: the column list reports `ID` twice and the row holds 1 then 2; the
record has the one entry `ID = 2`. -/
theorem invoke_duplicate_columns_collapse_witness :
    ∃ r : GoMap, ((exTool exDup).Invoke exHelpers []).result.records[0]? = some r ∧
      r.lookup [73, 68] = some (.int 2) ∧ r.keys.val.count [73, 68] = 1 ∧
      r.keys.card = 1 ∧ r.keys.card < 2 :=
  (invoke_duplicate_columns_collapse exHelpers (exTool exDup) [] exDup [[73, 68], [73, 68]]
    ⟨[81], [], rfl, rfl, rfl⟩ rfl rfl 0 [.int 1, .int 2] rfl).imp
    (fun _ hr => ⟨hr.1,
      hr.2.1 1 (by decide) (fun i' hi' hlt => absurd hi' (by simp; omega)),
      hr.2.2.1 [73, 68] (by decide), hr.2.2.2.1, hr.2.2.2.2 (by decide)⟩)

end oraclesql
